import Mathlib

/-!
Shallow embedding of the matching-engine core from
src/core/order.rs, src/core/log.rs, src/core/limit.rs,
src/core/order_book.rs and src/core/snapshot.rs.

Modelling conventions:
* `rust_decimal::Decimal` is modelled as `Rat`: the source only adds,
  subtracts and compares decimals, which `Rat` reproduces exactly.
* `SystemTime` fields (`Order.created_at`, log `time`) are wall-clock
  diagnostics never read by any code path; they are omitted.
* `HashMap<Decimal, Limit>` is modelled as an association list with
  unique keys; the code only observes it through `get_mut`, `insert`
  and `values()` followed by a price sort, all captured below.
* A Rust panic path (an `unwrap` of a missing entry in
  `Limit::delete_order`, the out-of-bounds index write in
  `Snapshot::construct_snapshot`) is modelled as `Option.none`.
* In-place mutation (`&mut`) is modelled by returning the updated value
  next to the function result.
* `ReceivedLog` (src/core/log.rs) is dead code never constructed in the
  repository and is omitted.
-/

attribute [local semireducible] Rat.add Rat.sub

/-- Model of `BidOrAsk` from src/core/order.rs. -/
inductive BidOrAsk where
  | Bid
  | Ask
  deriving DecidableEq, Repr

/-- Model of `Order` from src/core/order.rs (`created_at` omitted, see header). -/
structure Order where
  id : String
  price : Rat
  size : Rat
  sequence : Int
  bid_or_ask : BidOrAsk
  deriving DecidableEq, Repr

/-- Model of `Order::new` from src/core/order.rs: builds the record directly,
with `sequence = 0`; the source performs no validation of `price` or
`size` and has no failure path (it returns `Self`, not `Result`). -/
def Order.new (id : String) (bid_or_ask : BidOrAsk) (price : Rat) (size : Rat) : Order :=
  { id := id, price := price, size := size, sequence := 0, bid_or_ask := bid_or_ask }

/-- Model of `Order::is_filled`. -/
def Order.is_filled (o : Order) : Bool :=
  o.size == 0

/-- Model of `Order::next_log_seq`: increments the order's own `sequence` field
and returns the new value (the mutated order is returned alongside). -/
def Order.next_log_seq (o : Order) : Order × Int :=
  let o' := { o with sequence := o.sequence + 1 }
  (o', o'.sequence)

/-- Model of `LogType` from src/core/log.rs. -/
inductive LogType where
  | Match
  | Open
  | Done
  deriving DecidableEq, Repr

/-- Model of `Base` from src/core/log.rs (`time` omitted). -/
structure Base where
  log_type : LogType
  sequence : Int
  pair : String
  deriving DecidableEq, Repr

/-- Model of `OpenLog` from src/core/log.rs. -/
structure OpenLog where
  base : Base
  order_id : String
  size : Rat
  price : Rat
  bid_or_ask : BidOrAsk
  deriving DecidableEq, Repr

/-- Model of `OpenLog::new`. -/
def OpenLog.new (sequence : Int) (pair : String) (order_id : String)
    (size : Rat) (price : Rat) (bid_or_ask : BidOrAsk) : OpenLog :=
  { base := { log_type := LogType.Open, sequence := sequence, pair := pair },
    order_id := order_id, size := size, price := price, bid_or_ask := bid_or_ask }

/-- Model of `DoneLog` from src/core/log.rs. -/
structure DoneLog where
  base : Base
  order_id : String
  price : Rat
  remaining_size : Rat
  reason : String
  bid_or_ask : BidOrAsk
  deriving DecidableEq, Repr

/-- Model of `DoneLog::new`. -/
def DoneLog.new (sequence : Int) (pair : String) (order_id : String)
    (price : Rat) (remaining_size : Rat) (reason : String) (bid_or_ask : BidOrAsk) : DoneLog :=
  { base := { log_type := LogType.Done, sequence := sequence, pair := pair },
    order_id := order_id, price := price, remaining_size := remaining_size,
    reason := reason, bid_or_ask := bid_or_ask }

/-- Model of `MatchLog` from src/core/log.rs (`side` is set to `""` by `new`). -/
structure MatchLog where
  base : Base
  taker_order_id : String
  maker_order_id : String
  side : String
  price : Rat
  size : Rat
  deriving DecidableEq, Repr

/-- Model of `MatchLog::new`. -/
def MatchLog.new (sequence : Int) (pair : String) (taker_order_id : String)
    (maker_order_id : String) (price : Rat) (size : Rat) : MatchLog :=
  { base := { log_type := LogType.Match, sequence := sequence, pair := pair },
    taker_order_id := taker_order_id, maker_order_id := maker_order_id,
    side := "", price := price, size := size }

/-- The `dyn Log` trait objects of the source, as a tagged union. -/
inductive Log where
  | openL : OpenLog → Log
  | matchL : MatchLog → Log
  | doneL : DoneLog → Log
  deriving DecidableEq, Repr

/-- The price field carried by a log record. -/
def Log.price : Log → Rat
  | .openL l => l.price
  | .matchL l => l.price
  | .doneL l => l.price

/-- Model of `Limit` from src/core/limit.rs. -/
structure Limit where
  price : Rat
  orders : List Order
  deriving DecidableEq, Repr

/-- Model of `Limit::new`. -/
def Limit.new (price : Rat) : Limit :=
  { price := price, orders := [] }

/-- Model of `Limit::add_order` from src/core/limit.rs: pushes a clone of the
order (still carrying `sequence` as passed in), then stamps the
`OpenLog` with `order.next_log_seq()` — the per-order counter.  (The
calls in src/core/order_book.rs pass a second `sequence` argument that
this definition does not declare; the definition in limit.rs is
modelled as written.) -/
def Limit.add_order (l : Limit) (order : Order) : Limit × OpenLog :=
  let l' := { l with orders := l.orders ++ [order] }
  let os := order.next_log_seq
  (l', OpenLog.new os.2 ("PAIR") os.1.id os.1.size os.1.price os.1.bid_or_ask)

/-- Model of `Limit::delete_order` from src/core/limit.rs: `find` the order by
id, `unwrap` (modelled as `none` on a miss — the panic path), retain
the others, and emit a `DoneLog` with reason `"DELETED"` stamped from a
clone's `next_log_seq()`. -/
def Limit.delete_order (l : Limit) (id : String) : Option (Limit × DoneLog) :=
  match l.orders.find? (fun o => o.id == id) with
  | none => none
  | some o =>
    let os := o.next_log_seq
    let l' := { l with orders := l.orders.filter (fun o2 => o2.id != id) }
    some (l', DoneLog.new os.2 ("PAIR") id os.1.price os.1.size ("DELETED") os.1.bid_or_ask)

/-- One iteration of the `for limit_order in self.orders.iter_mut()`
loop of `Limit::fill_order` (src/core/limit.rs lines 126-156), acting
on the market order `m` and the resting order `o`.  In the
`market_order.size >= limit_order.size` branch the source decrements
the market order first and then logs `market_order.size` — the
post-subtraction remainder — as the match size, and logs
`limit_order.price` (the resting order's own price field) as the
price. -/
def fillStep (m : Order) (o : Order) : Order × Order × Log :=
  if m.size ≥ o.size then
    let m' := { m with size := m.size - o.size }
    let os := o.next_log_seq
    let log := Log.matchL (MatchLog.new os.2 ("PAIR") m'.id os.1.id os.1.price m'.size)
    (m', { os.1 with size := 0 }, log)
  else
    let o' := { o with size := o.size - m.size }
    let os := o'.next_log_seq
    let log := Log.matchL (MatchLog.new os.2 ("PAIR") m.id os.1.id os.1.price m.size)
    ({ m with size := 0 }, os.1, log)

/-- The full first loop of `Limit::fill_order`: the source iterates
over every resting order with no break, even after the market order's
size has reached zero.  Returns the mutated market order, the mutated
resting orders (in place), and the `MatchLog`s in emission order. -/
def fillWalk (m : Order) : List Order → Order × List Order × List Log
  | [] => (m, [], [])
  | o :: rest =>
    let s := fillStep m o
    let w := fillWalk s.1 rest
    (w.1, s.2.1 :: w.2.1, s.2.2 :: w.2.2)

/-- The `self.orders.retain(...)` pass of `Limit::fill_order`
(src/core/limit.rs lines 159-170): for every resting order — drained
or not — it pushes a `DoneLog` with reason `"FILLED"` and
`remaining_size` 0, then keeps the order iff its size is still
positive.  (`retain` receives a shared reference, so the sequence bump
is computed on a clone and the retained order is unchanged.) -/
def doneRetain : List Order → List Order × List Log
  | [] => ([], [])
  | o :: rest =>
    let log := Log.doneL (DoneLog.new (o.sequence + 1) "PAIR" o.id o.price 0 "FILLED" o.bid_or_ask)
    let w := doneRetain rest
    (if o.size > 0 then o :: w.1 else w.1, log :: w.2)

/-- Model of `Limit::fill_order` from src/core/limit.rs: the match walk followed
by the retain pass; logs are the match logs followed by the done
logs.  Returns the updated level, the mutated market order and the
logs. -/
def Limit.fill_order (l : Limit) (market_order : Order) : Limit × Order × List Log :=
  let w := fillWalk market_order l.orders
  let d := doneRetain w.2.1
  ({ l with orders := d.1 }, w.1, w.2.2 ++ d.2)

/-- Lookup in the `HashMap<Decimal, Limit>` model (`get`/`get_mut`). -/
def mapLookup (m : List (Rat × Limit)) (k : Rat) : Option Limit :=
  match m with
  | [] => none
  | kv :: rest => if kv.1 = k then some kv.2 else mapLookup rest k

/-- Write back through a `get_mut` borrow: replace the value at key `k`. -/
def mapUpdate (m : List (Rat × Limit)) (k : Rat) (v : Limit) : List (Rat × Limit) :=
  m.map (fun kv => if kv.1 = k then (k, v) else kv)

/-- Model of `OrderBook` from src/core/order_book.rs. -/
structure OrderBook where
  asks : List (Rat × Limit)
  bids : List (Rat × Limit)
  sequence : Int
  deriving DecidableEq, Repr

/-- Model of `OrderBook::new`. -/
def OrderBook.new : OrderBook :=
  { asks := [], bids := [], sequence := 0 }

/-- Model of `OrderBook::next_log_seq`: the book's own global counter. -/
def OrderBook.next_log_seq (b : OrderBook) : OrderBook × Int :=
  let b' := { b with sequence := b.sequence + 1 }
  (b', b'.sequence)

/-- The comparator of `OrderBook::ask_limits`
(`sort_by(|a, b| a.price.cmp(&b.price))`). -/
def askLe (a c : Limit) : Prop := a.price ≤ c.price

/-- The comparator of `OrderBook::bid_limits`
(`sort_by(|a, b| b.price.cmp(&a.price))`). -/
def bidGe (a c : Limit) : Prop := c.price ≤ a.price

instance : DecidableRel askLe := fun a c => inferInstanceAs (Decidable (a.price ≤ c.price))

instance : DecidableRel bidGe := fun a c => inferInstanceAs (Decidable (c.price ≤ a.price))

instance : IsTotal Limit askLe := ⟨fun a c => le_total a.price c.price⟩

instance : IsTrans Limit askLe := ⟨fun _ _ _ h1 h2 => le_trans h1 h2⟩

instance : IsTotal Limit bidGe := ⟨fun a c => le_total c.price a.price⟩

instance : IsTrans Limit bidGe := ⟨fun _ _ _ h1 h2 => le_trans h2 h1⟩

/-- Model of `OrderBook::ask_limits`: clone the ask map's values and stable-sort
them by ascending price (cheapest first). -/
def OrderBook.ask_limits (b : OrderBook) : List Limit :=
  List.insertionSort askLe (b.asks.map Prod.snd)

/-- Model of `OrderBook::bid_limits`: clone the bid map's values and stable-sort
them by descending price (highest first). -/
def OrderBook.bid_limits (b : OrderBook) : List Limit :=
  List.insertionSort bidGe (b.bids.map Prod.snd)

/-- The `for (index, limit_order) in limits.iter_mut().enumerate()`
loop of `OrderBook::fill_market_order` (src/core/order_book.rs lines
51-64): per level it draws `self.next_log_seq()` (the level-fill call
site passes this sequence on, but `Limit::fill_order` as defined in
limit.rs declares no such parameter, so it is drawn and dropped),
delegates to `Limit::fill_order`, appends the logs, and breaks once
the market order is filled.  Returns the book (sequence advanced), the
mutated market order, the local limits vector after processing, and
the logs. -/
def fillLimitsLoop (b : OrderBook) (m : Order) :
    List Limit → OrderBook × Order × List Limit × List Log
  | [] => (b, m, [], [])
  | l :: rest =>
    let bs := b.next_log_seq
    let f := l.fill_order m
    if f.2.1.is_filled then
      (bs.1, f.2.1, f.1 :: rest, f.2.2)
    else
      let w := fillLimitsLoop bs.1 f.2.1 rest
      (w.1, w.2.1, f.1 :: w.2.2.1, f.2.2 ++ w.2.2.2)

/-- Model of `OrderBook::fill_market_order` from src/core/order_book.rs: selects
the opposing side's price-sorted limits.  Crucially, `ask_limits` and
`bid_limits` return clones (`values().cloned()`), so the loop mutates a
local vector; the `remove_indices` bookkeeping then removes emptied
levels from that same local vector, which is dropped when the function
returns.  Neither the fills nor the removals ever reach `self.asks` or
`self.bids`; only `self.sequence` (via `next_log_seq`) and the borrowed
market order change.  The function returns the logs. -/
def OrderBook.fill_market_order (b : OrderBook) (market_order : Order) :
    OrderBook × Order × List Log :=
  let limits := match market_order.bid_or_ask with
    | BidOrAsk.Bid => b.ask_limits
    | BidOrAsk.Ask => b.bid_limits
  let w := fillLimitsLoop b market_order limits
  let _limits_after_local_removal := w.2.2.1.filter (fun l => !l.orders.isEmpty)
  (w.1, w.2.1, w.2.2.2)

/-- Model of `OrderBook::add_limit_order` from src/core/order_book.rs: draws the
book's next global sequence (passed on at the call sites but not
declared by `Limit::add_order` in limit.rs, so drawn and dropped),
then appends to the existing level at `price` on the order's side, or
creates the level and inserts it. -/
def OrderBook.add_limit_order (b : OrderBook) (price : Rat) (order : Order) :
    OrderBook × OpenLog :=
  let bs := b.next_log_seq
  match order.bid_or_ask with
  | BidOrAsk.Bid =>
    match mapLookup bs.1.bids price with
    | some limit =>
      let r := limit.add_order order
      ({ bs.1 with bids := mapUpdate bs.1.bids price r.1 }, r.2)
    | none =>
      let r := (Limit.new price).add_order order
      ({ bs.1 with bids := bs.1.bids ++ [(price, r.1)] }, r.2)
  | BidOrAsk.Ask =>
    match mapLookup bs.1.asks price with
    | some limit =>
      let r := limit.add_order order
      ({ bs.1 with asks := mapUpdate bs.1.asks price r.1 }, r.2)
    | none =>
      let r := (Limit.new price).add_order order
      ({ bs.1 with asks := bs.1.asks ++ [(price, r.1)] }, r.2)

/-- Model of `SnapshotData` from src/core/snapshot.rs. -/
structure SnapshotData where
  pair : String
  orders : List Order
  log_seq : Int
  trade_seq : Int
  deriving DecidableEq, Repr

/-- Model of `Snapshot` from src/core/snapshot.rs. -/
structure Snapshot where
  pair : String
  deriving DecidableEq, Repr

/-- Model of `Snapshot::new`. -/
def Snapshot.new (pair : String) : Snapshot :=
  { pair := pair }

/-- Model of `orders[i] = order` on a `Vec<Order>`: `none` when `i` is out of
bounds (the Rust panics there). -/
def setIdx : List Order → Nat → Order → Option (List Order)
  | [], _, _ => none
  | _ :: xs, 0, v => some (v :: xs)
  | x :: xs, n + 1, v => (setIdx xs n v).map (x :: ·)

/-- The two nested `for` loops of `Snapshot::construct_snapshot`
(src/core/snapshot.rs lines 36-48): for each order the counter `i` is
incremented first and the order is then written at `orders[i]` of the
accumulated vector — which started empty, so any order at all makes
the write out of bounds. -/
def writeOrders (limits : List Limit) (acc : Option (Nat × List Order)) :
    Option (Nat × List Order) :=
  limits.foldl
    (fun acc l =>
      l.orders.foldl
        (fun acc o =>
          match acc with
          | none => none
          | some iv =>
            match setIdx iv.2 (iv.1 + 1) o with
            | none => none
            | some os => some (iv.1 + 1, os))
        acc)
    acc

/-- Model of `Snapshot::construct_snapshot` from src/core/snapshot.rs: starts
from an empty `orders` vector, writes all ask-side orders then all
bid-side orders by indexed assignment (see `writeOrders`), and tags the
result with the pair and counters.  `none` models the index panic. -/
def Snapshot.construct_snapshot (s : Snapshot) (ask : List Limit) (bid : List Limit)
    (trade_seq : Int) (log_seq : Int) : Option SnapshotData :=
  match writeOrders ask (some (0, [])) with
  | none => none
  | some a =>
    match writeOrders bid (some a) with
    | none => none
    | some c =>
      some { pair := s.pair, orders := c.2, log_seq := log_seq, trade_seq := trade_seq }

/-- Model of `OrderBook::snapshot` from src/core/order_book.rs: flattens
`ask_limits` then `bid_limits` through `construct_snapshot` with both
counters passed as 0. -/
def OrderBook.snapshot (b : OrderBook) (pair : String) : Option SnapshotData :=
  (Snapshot.new pair).construct_snapshot b.ask_limits b.bid_limits 0 0

/-- Model of `OrderBook::restore` from src/core/order_book.rs: replays every
stored order through `add_limit_order` at its recorded price. -/
def OrderBook.restore (b : OrderBook) (snapshot : SnapshotData) : OrderBook :=
  snapshot.orders.foldl (fun bk order => (bk.add_limit_order order.price order).1) b

/-! ## Concrete books, levels and orders used by the claim theorems -/

def c1Book : OrderBook :=
  ((OrderBook.new.add_limit_order 120 (Order.new ("1") BidOrAsk.Ask 120 10)).1.add_limit_order 120
    (Order.new ("2") BidOrAsk.Ask 120 10)).1

def c1Market : Order := Order.new ("3") BidOrAsk.Bid 120 15

def c2Rest1 : Order := Order.new ("1") BidOrAsk.Ask 100 10

def c2Rest2 : Order := Order.new ("2") BidOrAsk.Ask 100 5

def c2Limit : Limit := { price := 100, orders := [c2Rest1, c2Rest2] }

def c2Market : Order := Order.new ("3") BidOrAsk.Bid 100 12

def c3Rest1 : Order := Order.new ("1") BidOrAsk.Ask 100 10

def c3Rest2 : Order := Order.new ("2") BidOrAsk.Ask 100 5

def c3Rest3 : Order := Order.new ("3") BidOrAsk.Ask 100 7

def c3Limit : Limit := { price := 100, orders := [c3Rest1, c3Rest2, c3Rest3] }

def c3Market : Order := Order.new ("M") BidOrAsk.Bid 100 12

def c4Limit : Limit := { price := 100, orders := [Order.new ("1") BidOrAsk.Ask 100 10] }

def c4Market : Order := Order.new ("2") BidOrAsk.Bid 100 5

def c6Limit : Limit := { price := 100, orders := [Order.new ("1") BidOrAsk.Ask 100 10] }

def c7Add1 : OrderBook × OpenLog :=
  OrderBook.new.add_limit_order 100 (Order.new ("1") BidOrAsk.Ask 100 10)

def c7Add2 : OrderBook × OpenLog :=
  c7Add1.1.add_limit_order 100 (Order.new ("2") BidOrAsk.Ask 100 5)

def c8Book : OrderBook :=
  (OrderBook.new.add_limit_order 100 (Order.new ("1") BidOrAsk.Ask 100 10)).1

/-! ## Claim theorems -/

/-- C1: the claim says the book's stored state after
`fill_market_order` reflects the fills (partially consumed resting
orders reduced in place, drained orders removed, emptied Limits removed
from the price map).  The code violates it: `ask_limits`/`bid_limits`
hand the loop clones of the Limits, and neither the fills nor the
level removals are ever written back to `self.asks`/`self.bids`.  At
the failing input (asks `[("1",10),("2",10)]` at price 120, market buy
of 15, the scenario of the repository's own
`test_partial_fill_market_order`), the market order ends fully filled
yet the stored ask map still holds both resting orders at size 10 —
the repository's test expects one remaining order.  -/
theorem C1_fill_market_order_never_updates_stored_book :
    (c1Book.fill_market_order c1Market).1.asks = c1Book.asks ∧
    (c1Book.fill_market_order c1Market).1.bids = c1Book.bids ∧
    c1Book.asks.map (fun kv => kv.2.orders.map Order.size) = [[10, 10]] ∧
    (c1Book.fill_market_order c1Market).2.1.size = 0 := by
  decide

/-- C2: the claim says each match step logs
`matched = min(incoming.size, resting.size)`.  In the
`market_order.size >= limit_order.size` branch the code decrements the
market order first and logs the post-subtraction remainder.  At the
failing input (resting sizes `[10, 5]`, market size 12 — the scenario
of the repository's own `test_fill_order`, which expects a first fill
of 10) the first Match event carries size 2, not
`min 12 10 = 10`.  -/
theorem C2_match_log_carries_remainder_not_min :
    ((c2Limit.fill_order c2Market).2.2).head? =
      some (Log.matchL (MatchLog.new 1 "PAIR" "3" "1" 100 2)) ∧
    min c2Market.size c2Rest1.size = 10 ∧
    (2 : Rat) ≠ min c2Market.size c2Rest1.size := by
  decide

/-- C3: the claim says the walk stops as soon as the incoming order's
size reaches 0, so the makers matched form an arrival-order prefix of
the queue.  The code's loop has no break: at the failing input
(resting sizes `[10, 5, 7]`, market size 12) the taker is exhausted
after the second resting order (first conjunct), yet the walk still
emits a Match event of size 0 for the third maker (second
conjunct).  -/
theorem C3_walk_continues_after_taker_exhausted :
    (fillWalk c3Market [c3Rest1, c3Rest2]).1.size = 0 ∧
    ((c3Limit.fill_order c3Market).2.2)[2]? =
      some (Log.matchL (MatchLog.new 1 "PAIR" "M" "3" 100 0)) := by
  decide

/-- C4: the claim says a Done/FILLED event is emitted iff the resting
order was drained to exactly 0, and a resting order left with positive
size receives no Done event.  The code's `retain` pass pushes a
Done/FILLED log with `remaining_size = 0` for every resting order,
drained or not.  At the failing input (one resting order of size 10,
market size 5 — the scenario of the repository's own
`test_fill_market_order_bid`, which expects a single log), the maker
remains resting with size 5 yet a Done/FILLED event for it is
emitted.  -/
theorem C4_done_filled_emitted_for_partially_filled_maker :
    (c4Limit.fill_order c4Market).1.orders.map (fun o => (o.id, o.size)) = [("1", 5)] ∧
    (c4Limit.fill_order c4Market).2.2 =
      [Log.matchL (MatchLog.new 1 "PAIR" "2" "1" 100 5),
       Log.doneL (DoneLog.new 2 "PAIR" "1" 100 0 "FILLED" BidOrAsk.Ask)] := by
  decide

/-- C6: the claim says cancelling an id that is not resting signals
`NotFound` through an explicit absent-result rather than aborting.
`Limit::delete_order` instead `unwrap`s the `find` result, which
panics (aborts the process) when the id is absent; the `none` below is
exactly that panic path.  (There is also no book-level `cancel_order`
in src/core/order_book.rs at all.)  -/
theorem C6_delete_order_missing_id_hits_panic_path :
    c6Limit.delete_order ("ghost") = none ∧
    c6Limit.orders.map Order.id = ["1"] := by
  decide

/-- C7: the claim says every emitted event is stamped from the book's
single global counter, strictly increasing and never reused.
`Limit::add_order` instead stamps the OpenLog from the added order's
own `next_log_seq()`: adding two fresh orders to one book produces two
Open events both stamped with sequence 1 (reuse), while the book's
global counter — advanced but never written into the events — stands
at 2.  -/
theorem C7_open_log_sequences_reused_from_per_order_counter :
    c7Add1.2.base.sequence = 1 ∧
    c7Add2.2.base.sequence = 1 ∧
    c7Add2.1.sequence = 2 := by
  decide

/-- C8: the claim says `restore(snapshot(B))` rebuilds the same resting
set, with `snapshot` flattening all ask then bid Limits into one order
list.  `construct_snapshot` writes each order by indexed assignment
`orders[i]` (with `i` pre-incremented, starting from 1) into a vector
created empty, so it panics — modelled as `none` — for every book
holding at least one resting order; the round trip only goes through
for an empty book.  -/
theorem C8_snapshot_panics_on_any_resting_order :
    c8Book.snapshot ("PAIR") = none ∧
    c8Book.asks.map (fun kv => kv.2.orders.map Order.id) = [["1"]] ∧
    OrderBook.new.snapshot ("PAIR") =
      some { pair := "PAIR", orders := [], log_seq := 0, trade_seq := 0 } := by
  decide

/-- C9 counterexample: the claim says `Order::new` fails with an
`InvalidOrder` validation error whenever `size <= 0` or `price <= 0`.
The source has no failure path at all (it returns `Self`, not
`Result`) and performs no validation: at the concrete invalid input
`price = 0`, `size = -1`, construction succeeds and returns the order
unchanged.  -/
theorem C9_counterexample_new_accepts_nonpositive_input :
    Order.new ("x") BidOrAsk.Bid 0 (-1) =
      { id := "x", price := 0, size := -1, sequence := 0, bid_or_ask := BidOrAsk.Bid } :=
  rfl

/-- C9 amended: `Order::new` performs no validation and cannot fail:
for every id, side, price and size — non-positive values included — it
returns the order with exactly those fields and `sequence = 0`.  -/
theorem C9_new_performs_no_validation (id : String) (side : BidOrAsk) (price size : Rat) :
    Order.new id side price size =
      { id := id, price := price, size := size, sequence := 0, bid_or_ask := side } :=
  rfl

/-! ## General lemmas about the market-order fill loop -/

/-- Lemma: `fillLimitsLoop` mutates only the book's sequence counter: the two
price maps it returns are the ones it was given. -/
theorem fillLimitsLoop_maps (b : OrderBook) (m : Order) (ls : List Limit) :
    (fillLimitsLoop b m ls).1.asks = b.asks ∧ (fillLimitsLoop b m ls).1.bids = b.bids := by
  induction ls generalizing b m with
  | nil => exact ⟨rfl, rfl⟩
  | cons l rest ih =>
    simp only [fillLimitsLoop]
    split
    · exact ⟨rfl, rfl⟩
    · exact ih _ _

/-- C10: a market order never rests.  For every book and incoming
order, `fill_market_order` leaves both price maps exactly as they were
(so in particular no unmatched remainder is ever inserted as a new
resting order), and against an empty opposing side it emits no events
and returns the incoming order — size included — unchanged, with the
book untouched.  -/
theorem C10_market_order_never_rests (b : OrderBook) (m : Order) :
    (b.fill_market_order m).1.asks = b.asks ∧
    (b.fill_market_order m).1.bids = b.bids ∧
    (m.bid_or_ask = BidOrAsk.Bid → b.asks = [] →
      (b.fill_market_order m).2.2 = [] ∧ (b.fill_market_order m).2.1 = m ∧
      (b.fill_market_order m).1 = b) ∧
    (m.bid_or_ask = BidOrAsk.Ask → b.bids = [] →
      (b.fill_market_order m).2.2 = [] ∧ (b.fill_market_order m).2.1 = m ∧
      (b.fill_market_order m).1 = b) := by
  refine ⟨?_, ?_, ?_, ?_⟩
  · simp only [OrderBook.fill_market_order]
    exact (fillLimitsLoop_maps b m _).1
  · simp only [OrderBook.fill_market_order]
    exact (fillLimitsLoop_maps b m _).2
  · intro hside hempty
    simp [OrderBook.fill_market_order, hside, OrderBook.ask_limits, hempty, fillLimitsLoop]
  · intro hside hempty
    simp [OrderBook.fill_market_order, hside, OrderBook.bid_limits, hempty, fillLimitsLoop]

/-- Witness for C10 at a concrete input: a market buy of size 100
against an empty book produces no events and comes back with its size
still 100.  -/
theorem C10_market_order_never_rests_witness :
    (OrderBook.new.fill_market_order (Order.new ("M1") BidOrAsk.Bid 0 100)).2.2 = [] ∧
    (OrderBook.new.fill_market_order (Order.new ("M1") BidOrAsk.Bid 0 100)).2.1 =
      Order.new ("M1") BidOrAsk.Bid 0 100 := by
  have h := C10_market_order_never_rests OrderBook.new (Order.new ("M1") BidOrAsk.Bid 0 100)
  exact ⟨(h.2.2.1 rfl rfl).1, (h.2.2.1 rfl rfl).2.1⟩

/-! ## Price-priority lemmas (claim C5) -/

/-- Book-side invariant: every resting order in a price level carries
that level's price (the spec's Limit invariant). -/
def coherentSide (m : List (Rat × Limit)) : Prop :=
  ∀ kv ∈ m, ∀ o ∈ kv.2.orders, o.price = kv.2.price

instance (m : List (Rat × Limit)) : Decidable (coherentSide m) :=
  inferInstanceAs (Decidable (∀ kv ∈ m, ∀ o ∈ kv.2.orders, o.price = kv.2.price))

/-- A match step logs the resting order's price. -/
theorem fillStep_log_price (m o : Order) : (fillStep m o).2.2.price = o.price := by
  simp only [fillStep]
  split <;> rfl

/-- A match step leaves the resting order's price unchanged. -/
theorem fillStep_order_price (m o : Order) : (fillStep m o).2.1.price = o.price := by
  simp only [fillStep]
  split <;> rfl

/-- The match walk keeps the resting orders' prices and logs exactly
those prices, in order. -/
theorem fillWalk_prices (m : Order) (os : List Order) :
    (fillWalk m os).2.1.map Order.price = os.map Order.price ∧
    (fillWalk m os).2.2.map Log.price = os.map Order.price := by
  induction os generalizing m with
  | nil => exact ⟨rfl, rfl⟩
  | cons o rest ih =>
    simp only [fillWalk, List.map_cons]
    exact ⟨by rw [fillStep_order_price, (ih _).1], by rw [fillStep_log_price, (ih _).2]⟩

/-- The retain pass logs each surviving or dropped order's own price. -/
theorem doneRetain_log_prices (os : List Order) :
    (doneRetain os).2.map Log.price = os.map Order.price := by
  induction os with
  | nil => rfl
  | cons o rest ih =>
    simp only [doneRetain, List.map_cons]
    rw [ih]
    rfl

/-- The prices logged by one `Limit::fill_order` call are the resting
orders' prices (once for the match logs, once for the done logs). -/
theorem fill_order_log_prices (l : Limit) (m : Order) :
    ((l.fill_order m).2.2).map Log.price =
      l.orders.map Order.price ++ l.orders.map Order.price := by
  simp only [Limit.fill_order, List.map_append]
  rw [(fillWalk_prices m l.orders).2, doneRetain_log_prices, (fillWalk_prices m l.orders).1]

/-- Under the level-price invariant, every log emitted by
`Limit::fill_order` carries the level's price. -/
theorem fill_order_log_price_eq (l : Limit) (m : Order)
    (h : ∀ o ∈ l.orders, o.price = l.price) :
    ∀ x ∈ (l.fill_order m).2.2, x.price = l.price := by
  intro x hx
  have hmem : x.price ∈ ((l.fill_order m).2.2).map Log.price := List.mem_map_of_mem _ hx
  rw [fill_order_log_prices] at hmem
  rcases List.mem_append.mp hmem with hm | hm <;>
    · obtain ⟨o, ho, hpe⟩ := List.mem_map.mp hm
      rw [← hpe]
      exact h o ho

/-- Every log price produced by the level walk is the price of one of
the walked levels. -/
theorem fillLimitsLoop_log_price_mem (b : OrderBook) (m : Order) (ls : List Limit)
    (hcoh : ∀ l ∈ ls, ∀ o ∈ l.orders, o.price = l.price) :
    ∀ x ∈ (fillLimitsLoop b m ls).2.2.2, x.price ∈ ls.map Limit.price := by
  induction ls generalizing b m with
  | nil => intro x hx; cases hx
  | cons l rest ih =>
    intro x hx
    have hl : ∀ o ∈ l.orders, o.price = l.price := hcoh l (List.mem_cons_self l rest)
    have hrest : ∀ l' ∈ rest, ∀ o ∈ l'.orders, o.price = l'.price :=
      fun l' h' => hcoh l' (List.mem_cons_of_mem l h')
    simp only [fillLimitsLoop] at hx
    rw [List.map_cons]
    split at hx
    · rw [fill_order_log_price_eq l m hl x hx]
      exact List.mem_cons_self l.price (rest.map Limit.price)
    · rcases List.mem_append.mp hx with hm | hm
      · rw [fill_order_log_price_eq l m hl x hm]
        exact List.mem_cons_self l.price (rest.map Limit.price)
      · exact List.mem_cons_of_mem l.price (ih _ _ hrest x hm)

/-- If every element of a list has the same price `c` and `R c c`
holds, the list is pairwise `R` on prices. -/
theorem pairwiseAllEqPrice (R : Rat → Rat → Prop) (c : Rat) (hc : R c c) :
    ∀ xs : List Log, (∀ x ∈ xs, x.price = c) →
      xs.Pairwise (fun x y => R x.price y.price)
  | [] => fun _ => List.Pairwise.nil
  | x :: xs => fun h =>
    List.Pairwise.cons
      (fun y hy => by
        rw [h x (List.mem_cons_self x xs), h y (List.mem_cons_of_mem x hy)]
        exact hc)
      (pairwiseAllEqPrice R c hc xs (fun y hy => h y (List.mem_cons_of_mem x hy)))

/-- Walking levels whose prices are pairwise `R`-related (with the
level-price invariant) yields a log stream whose prices are pairwise
`R`-related: events at earlier levels relate to all later events. -/
theorem fillLimitsLoop_pairwise (R : Rat → Rat → Prop) (hrefl : ∀ x, R x x)
    (b : OrderBook) (m : Order) (ls : List Limit)
    (hcoh : ∀ l ∈ ls, ∀ o ∈ l.orders, o.price = l.price)
    (hsort : ls.Pairwise (fun a c => R a.price c.price)) :
    ((fillLimitsLoop b m ls).2.2.2).Pairwise (fun x y => R x.price y.price) := by
  induction ls generalizing b m with
  | nil => exact List.Pairwise.nil
  | cons l rest ih =>
    obtain ⟨hl, hrest⟩ := List.pairwise_cons.mp hsort
    have hcl : ∀ o ∈ l.orders, o.price = l.price := hcoh l (List.mem_cons_self l rest)
    have hcrest : ∀ l' ∈ rest, ∀ o ∈ l'.orders, o.price = l'.price :=
      fun l' h' => hcoh l' (List.mem_cons_of_mem l h')
    simp only [fillLimitsLoop]
    split
    · exact pairwiseAllEqPrice R l.price (hrefl l.price) _ (fill_order_log_price_eq l m hcl)
    · rw [List.pairwise_append]
      refine ⟨pairwiseAllEqPrice R l.price (hrefl l.price) _ (fill_order_log_price_eq l m hcl),
        ih _ _ hcrest hrest, ?_⟩
      intro x hx y hy
      rw [fill_order_log_price_eq l m hcl x hx]
      have hmem := fillLimitsLoop_log_price_mem _ _ rest hcrest y hy
      obtain ⟨l', hl', hpy⟩ := List.mem_map.mp hmem
      rw [← hpy]
      exact hl l' hl'

def c5Book : OrderBook :=
  ((OrderBook.new.add_limit_order 110 (Order.new ("A3") BidOrAsk.Ask 110 10)).1.add_limit_order 105
    (Order.new ("A4") BidOrAsk.Ask 105 10)).1

def c5Market : Order := Order.new ("M") BidOrAsk.Bid 0 15

/-- C5: `fill_market_order` consumes the opposing side's levels in
price-priority order recomputed from current state.  For every book
satisfying the level-price invariant (each resting order carries its
level's price): `ask_limits` is sorted by ascending price and
`bid_limits` by descending price, each a permutation of the stored
side's levels (so the ordering is re-derived from the live map,
regardless of insertion order); consequently the event stream of a buy
market order has non-decreasing prices (everything at a cheaper level
is emitted before anything at a dearer one) and that of a sell market
order has non-increasing prices.  -/
theorem C5_price_priority (b : OrderBook) (m : Order)
    (hA : coherentSide b.asks) (hB : coherentSide b.bids) :
    List.Sorted askLe b.ask_limits ∧
    List.Sorted bidGe b.bid_limits ∧
    b.ask_limits.Perm (b.asks.map Prod.snd) ∧
    b.bid_limits.Perm (b.bids.map Prod.snd) ∧
    (m.bid_or_ask = BidOrAsk.Bid →
      ((b.fill_market_order m).2.2).Pairwise (fun x y => x.price ≤ y.price)) ∧
    (m.bid_or_ask = BidOrAsk.Ask →
      ((b.fill_market_order m).2.2).Pairwise (fun x y => y.price ≤ x.price)) := by
  have hsortA : List.Sorted askLe b.ask_limits :=
    List.sorted_insertionSort askLe (b.asks.map Prod.snd)
  have hsortB : List.Sorted bidGe b.bid_limits :=
    List.sorted_insertionSort bidGe (b.bids.map Prod.snd)
  have hpermA : b.ask_limits.Perm (b.asks.map Prod.snd) :=
    List.perm_insertionSort askLe (b.asks.map Prod.snd)
  have hpermB : b.bid_limits.Perm (b.bids.map Prod.snd) :=
    List.perm_insertionSort bidGe (b.bids.map Prod.snd)
  have hcohA : ∀ l ∈ b.ask_limits, ∀ o ∈ l.orders, o.price = l.price := by
    intro l hl
    obtain ⟨kv, hkv, hkv2⟩ := List.mem_map.mp (hpermA.mem_iff.mp hl)
    rw [← hkv2]
    exact hA kv hkv
  have hcohB : ∀ l ∈ b.bid_limits, ∀ o ∈ l.orders, o.price = l.price := by
    intro l hl
    obtain ⟨kv, hkv, hkv2⟩ := List.mem_map.mp (hpermB.mem_iff.mp hl)
    rw [← hkv2]
    exact hB kv hkv
  refine ⟨hsortA, hsortB, hpermA, hpermB, ?_, ?_⟩
  · intro hside
    simp only [OrderBook.fill_market_order, hside]
    exact fillLimitsLoop_pairwise (fun x y => x ≤ y) (fun x => le_refl x) b m
      b.ask_limits hcohA hsortA
  · intro hside
    simp only [OrderBook.fill_market_order, hside]
    exact fillLimitsLoop_pairwise (fun x y => y ≤ x) (fun x => le_refl x) b m
      b.bid_limits hcohB hsortB

/-- Witness for C5 at a concrete input: asks at price 110 (`A3`,
inserted first) and price 105 (`A4`, inserted later), and a market buy
of 15 — the spec's scenario 3, where price priority must override
insertion order.  -/
theorem C5_price_priority_witness :
    List.Sorted askLe c5Book.ask_limits ∧
    List.Sorted bidGe c5Book.bid_limits ∧
    c5Book.ask_limits.Perm (c5Book.asks.map Prod.snd) ∧
    c5Book.bid_limits.Perm (c5Book.bids.map Prod.snd) ∧
    (c5Market.bid_or_ask = BidOrAsk.Bid →
      ((c5Book.fill_market_order c5Market).2.2).Pairwise (fun x y => x.price ≤ y.price)) ∧
    (c5Market.bid_or_ask = BidOrAsk.Ask →
      ((c5Book.fill_market_order c5Market).2.2).Pairwise (fun x y => y.price ≤ x.price)) :=
  C5_price_priority c5Book c5Market (by decide) (by decide)
